import Mathlib

/-!
Shallow embedding of `fetch_data.py` (incremental OHLCV downloader):
the Resume Planner, the Pagination Engine, and the Merge/Persist step,
together with theorems about their behaviour.

Timestamps are UTC instants in milliseconds, modelled as `Nat`.
The numeric OHLCV payload fields are carried opaquely (no arithmetic is
ever performed on them by the program), modelled as `Int`.
-/

namespace TrendFollowing

/-- One OHLCV bar: `{ts, open, high, low, close, volume}`.
`ts` is the timestamp in milliseconds; the five numeric payload fields
(`op`=open, `hi`=high, `lo`=low, `cl`=close, `vol`=volume) are opaque. -/
structure Candle where
  ts : Nat
  op : Int
  hi : Int
  lo : Int
  cl : Int
  vol : Int
deriving DecidableEq

/-- The persisted table for one (exchange, instrument, timeframe) triple:
an ordered sequence of Candles (rows of the CSV file, top to bottom). -/
abbrev Series := List Candle

/-- Stable insertion of a candle into a list by timestamp: the new candle is
placed before the first element whose timestamp is `≥` its own, so that
elements with equal timestamps keep their original relative order. -/
def insertTs (c : Candle) : Series → Series
  | [] => [c]
  | d :: ds => if c.ts ≤ d.ts then c :: d :: ds else d :: insertTs c ds

/-- One admissible implementation of `df.sort_values("ts")`: an insertion
sort ascending by `ts` with a stable tie order (rows with equal `ts`
keep the order they had in the input frame). pandas' default
`kind='quicksort'` is documented as unstable, so the source fixes no tie
order; `SortValuesTs` below is the relational contract covering every
admissible tie order, of which this function realises one. -/
def sortByTs : Series → Series
  | [] => []
  | c :: cs => insertTs c (sortByTs cs)

/-- `df.drop_duplicates(subset=["ts"])` with pandas' default `keep="first"`:
keep a row iff its timestamp has not occurred earlier in the frame.
`seen` accumulates the timestamps already kept. -/
def dropDupTs (seen : List Nat) : Series → Series
  | [] => []
  | c :: cs =>
    if c.ts ∈ seen then dropDupTs seen cs
    else c :: dropDupTs (c.ts :: seen) cs

/-- `save_csv`: `df.sort_values("ts").drop_duplicates(subset=["ts"])`, then the
result is written wholesale; we model the written frame as the return value.
This is the deterministic representative obtained with a stable tie order;
`SaveCsvOutcome` below describes all outcomes the source's unstable sort
admits, and `save_csv_outcome` shows this function realises one of them. -/
def save_csv (df : Series) : Series :=
  dropDupTs [] (sortByTs df)

/-- Relational contract of `df.sort_values("ts")` (line 72): with pandas'
default unstable `kind='quicksort'`, the result is some reordering of the
frame that is ascending by `ts`; the relative order of rows sharing a
timestamp is NOT specified by the source. -/
def SortValuesTs (df out : Series) : Prop :=
  out.Perm df ∧ List.Pairwise (fun a b => a.ts ≤ b.ts) out

/-- The set of frames `save_csv` may persist for input `df` when the tie
order of the unstable sort is unspecified: keep-first dedup of some
admissible sort result. -/
def SaveCsvOutcome (df out : Series) : Prop :=
  ∃ sorted, SortValuesTs df sorted ∧ out = dropDupTs [] sorted

/-- `ohlcv[-1]` for a nonempty page `d :: rest`: the last element. -/
def lastD (d : Candle) : List Candle → Candle
  | [] => d
  | c :: cs => lastD c cs

/-- `df["ts"].iloc[-1]` on a possibly-empty frame: the last row, if any. -/
def lastCandle? : Series → Option Candle
  | [] => none
  | c :: cs => some (lastD c cs)

/-- The Resume Planner (lines 86-93 of `fetch_data.py`): if the stored Series
is non-empty, resume one millisecond after its last row's timestamp;
otherwise start from the user-supplied `since_ms`. -/
def resumeCursor (existing : Series) (sinceMs : Nat) : Nat :=
  match lastCandle? existing with
  | some c => c.ts + 1
  | none => sinceMs

-- Basic lemmas about the stable sort.

lemma mem_insertTs {a c : Candle} {l : Series} :
    a ∈ insertTs c l ↔ a = c ∨ a ∈ l := by
  induction l with
  | nil => simp [insertTs]
  | cons d ds ih =>
    by_cases hc : c.ts ≤ d.ts
    · simp [insertTs, hc]
    · simp [insertTs, hc, ih]
      tauto

lemma pairwise_insertTs {c : Candle} {l : Series}
    (h : List.Pairwise (fun a b => a.ts ≤ b.ts) l) :
    List.Pairwise (fun a b => a.ts ≤ b.ts) (insertTs c l) := by
  induction l with
  | nil => simp [insertTs]
  | cons d ds ih =>
    rw [List.pairwise_cons] at h
    by_cases hc : c.ts ≤ d.ts
    · rw [insertTs]
      simp only [hc, if_true]
      refine List.pairwise_cons.mpr ⟨?_, List.pairwise_cons.mpr h⟩
      intro x hx
      rcases List.mem_cons.mp hx with rfl | hx
      · exact hc
      · exact le_trans hc (h.1 x hx)
    · rw [insertTs]
      simp only [hc, if_false]
      refine List.pairwise_cons.mpr ⟨?_, ih h.2⟩
      intro x hx
      rcases mem_insertTs.mp hx with rfl | hx
      · exact Nat.le_of_lt (Nat.lt_of_not_le hc)
      · exact h.1 x hx

lemma pairwise_sortByTs (l : Series) :
    List.Pairwise (fun a b => a.ts ≤ b.ts) (sortByTs l) := by
  induction l with
  | nil => exact List.Pairwise.nil
  | cons c cs ih => exact pairwise_insertTs ih

lemma perm_insertTs (c : Candle) (l : Series) :
    (insertTs c l).Perm (c :: l) := by
  induction l with
  | nil => exact List.Perm.refl _
  | cons d ds ih =>
    rw [insertTs]
    by_cases hc : c.ts ≤ d.ts
    · rw [if_pos hc]
    · rw [if_neg hc]
      exact (ih.cons d).trans (List.Perm.swap c d ds)

lemma perm_sortByTs (l : Series) : (sortByTs l).Perm l := by
  induction l with
  | nil => exact List.Perm.refl _
  | cons c cs ih => exact (perm_insertTs c (sortByTs cs)).trans (ih.cons c)

/-- The deterministic `save_csv` realises one of the outcomes the
source's unspecified tie order admits. -/
lemma save_csv_outcome (df : Series) : SaveCsvOutcome df (save_csv df) :=
  ⟨sortByTs df, ⟨perm_sortByTs df, pairwise_sortByTs df⟩, rfl⟩

/-- Stability of the sort, phrased on timestamp equality classes: the
subsequence of rows carrying a fixed timestamp is unchanged by sorting. -/
lemma filter_insertTs (c : Candle) (l : Series) (t : Nat) :
    (insertTs c l).filter (fun d => d.ts == t) =
      if c.ts = t then c :: l.filter (fun d => d.ts == t)
      else l.filter (fun d => d.ts == t) := by
  induction l with
  | nil =>
    rw [insertTs]
    by_cases hct : c.ts = t <;> simp [List.filter_cons, hct]
  | cons d ds ih =>
    rw [insertTs]
    by_cases hc : c.ts ≤ d.ts
    · rw [if_pos hc]
      by_cases hct : c.ts = t <;> simp [List.filter_cons, hct]
    · rw [if_neg hc, List.filter_cons, ih]
      have hdc : d.ts < c.ts := Nat.lt_of_not_le hc
      by_cases hct : c.ts = t
      · have hdt : ¬ d.ts = t := by omega
        simp [List.filter_cons, hct, hdt]
      · by_cases hdt : d.ts = t <;> simp [List.filter_cons, hct, hdt]

lemma filter_sortByTs (l : Series) (t : Nat) :
    (sortByTs l).filter (fun d => d.ts == t) =
      l.filter (fun d => d.ts == t) := by
  induction l with
  | nil => rfl
  | cons c cs ih =>
    rw [sortByTs, filter_insertTs]
    by_cases hct : c.ts = t <;> simp [List.filter_cons, hct, ih]

-- Basic lemmas about keep-first deduplication.

lemma dropDupTs_sublist (seen : List Nat) (l : Series) :
    (dropDupTs seen l).Sublist l := by
  induction l generalizing seen with
  | nil => exact List.Sublist.refl []
  | cons c cs ih =>
    rw [dropDupTs]
    by_cases hc : c.ts ∈ seen
    · simp only [hc, if_true]
      exact List.Sublist.cons c (ih seen)
    · simp only [hc, if_false]
      exact List.Sublist.cons₂ c (ih (c.ts :: seen))

lemma dropDupTs_ts_not_seen {seen : List Nat} {l : Series} :
    ∀ c ∈ dropDupTs seen l, c.ts ∉ seen := by
  induction l generalizing seen with
  | nil => intro c hc; simp [dropDupTs] at hc
  | cons a as ih =>
    intro c hc
    rw [dropDupTs] at hc
    by_cases ha : a.ts ∈ seen
    · simp only [ha, if_true] at hc
      exact ih c hc
    · simp only [ha, if_false, List.mem_cons] at hc
      rcases hc with rfl | hc
      · exact ha
      · intro hmem
        exact ih c hc (List.mem_cons_of_mem _ hmem)

lemma dropDupTs_ts_nodup (seen : List Nat) (l : Series) :
    ((dropDupTs seen l).map Candle.ts).Nodup := by
  induction l generalizing seen with
  | nil => simp [dropDupTs]
  | cons a as ih =>
    rw [dropDupTs]
    by_cases ha : a.ts ∈ seen
    · simp only [ha, if_true]
      exact ih seen
    · simp only [ha, if_false, List.map_cons]
      refine List.nodup_cons.mpr ⟨?_, ih (a.ts :: seen)⟩
      intro hmem
      rcases List.mem_map.mp hmem with ⟨d, hd, hdts⟩
      exact dropDupTs_ts_not_seen d hd (hdts ▸ List.mem_cons_self _ _)

lemma filter_dropDupTs_of_seen {t : Nat} {seen : List Nat} (l : Series)
    (ht : t ∈ seen) :
    (dropDupTs seen l).filter (fun d => d.ts == t) = [] := by
  induction l generalizing seen with
  | nil => rfl
  | cons a as ih =>
    rw [dropDupTs]
    by_cases ha : a.ts ∈ seen
    · simp only [ha, if_true]
      exact ih ht
    · have hat : ¬ a.ts = t := fun h => ha (h ▸ ht)
      simp only [ha, if_false]
      rw [List.filter_cons]
      simp only [beq_iff_eq, hat, if_false]
      exact ih (List.mem_cons_of_mem _ ht)

lemma filter_dropDupTs {t : Nat} {seen : List Nat} (l : Series)
    (ht : t ∉ seen) :
    (dropDupTs seen l).filter (fun d => d.ts == t) =
      (l.filter (fun d => d.ts == t)).take 1 := by
  induction l generalizing seen with
  | nil => rfl
  | cons a as ih =>
    rw [dropDupTs]
    by_cases ha : a.ts ∈ seen
    · have hat : ¬ a.ts = t := fun h => ht (h ▸ ha)
      simp only [ha, if_true, List.filter_cons, beq_iff_eq, hat, if_false]
      exact ih ht
    · simp only [ha, if_false]
      by_cases hat : a.ts = t
      · subst hat
        rw [List.filter_cons, List.filter_cons]
        simp only [beq_self_eq_true, if_true]
        rw [filter_dropDupTs_of_seen as (List.mem_cons_self _ _)]
        simp
      · rw [List.filter_cons, List.filter_cons]
        simp only [beq_iff_eq, hat, if_false]
        refine ih ?_
        intro hmem
        rcases List.mem_cons.mp hmem with h | h
        · exact hat h.symm
        · exact ht h

-- Lemmas about the last row of a frame.

lemma lastD_mem (d : Candle) (l : List Candle) : lastD d l ∈ d :: l := by
  induction l generalizing d with
  | nil => simp [lastD]
  | cons c cs ih =>
    rw [lastD]
    exact List.mem_cons_of_mem _ (ih c)

lemma lastD_ts_max {d : Candle} {l : List Candle}
    (hs : List.Pairwise (fun a b => a.ts < b.ts) (d :: l)) :
    ∀ x ∈ d :: l, x.ts ≤ (lastD d l).ts := by
  induction l generalizing d with
  | nil =>
    intro x hx
    rcases List.mem_cons.mp hx with rfl | hx
    · exact le_refl _
    · simp at hx
  | cons c cs ih =>
    intro x hx
    rw [List.pairwise_cons] at hs
    rw [lastD]
    rcases List.mem_cons.mp hx with rfl | hx
    · exact le_of_lt (hs.1 _ (lastD_mem c cs))
    · exact ih hs.2 x hx

-- The exchange collaborator and the Pagination Engine.

/-- The outcome of one `exchange.fetch_ohlcv` call, as seen by the loop:
a page of candles (possibly empty), a transient `ccxt.NetworkError`, or a
non-retryable `ccxt.ExchangeError`. A mocked collaborator is a finite
script of such outcomes, consumed one per issued request. -/
inductive FetchResult where
  | page (p : List Candle)
  | netError
  | exchangeError
deriving DecidableEq

/-- `time.sleep(5)` on a network error: the fixed retry backoff, in ms. -/
def retryBackoffMs : Nat := 5000

/-- `limit is not None and total_added >= limit` (lines 127-129). -/
def checkLimit : Option Nat → Nat → Bool
  | none, _ => false
  | some l, total => l ≤ total

/-- Observable outcome of the `while True` fetch loop (lines 100-132):
the pages appended to `all_new` in order, the number of `fetch_ohlcv`
requests issued, the cursor (`fetch_since`) passed to each request in
order, the final value of `fetch_since`, the backoff sleeps performed
(in ms, one per network error), and whether the loop exited via `break`
(`stopped = false` means the finite script was exhausted with the loop
still running). -/
structure LoopResult where
  pages : List (List Candle)
  requests : Nat
  cursors : List Nat
  finalCursor : Nat
  backoffs : List Nat
  stopped : Bool
deriving DecidableEq

/-- The Pagination Engine: the `while True` loop of `fetch_symbol`
(lines 100-132), run against a finite collaborator script.
* a network error sleeps 5s and retries without touching `fetch_since`;
* an exchange error breaks out of the loop;
* an empty page breaks out of the loop;
* a non-empty page is appended to `all_new`, `fetch_since` is advanced to
  the page's last timestamp + 1, `total_added` grows by the page length,
  and the loop breaks iff the user row cap is reached or exceeded. -/
def fetchLoop (lim : Option Nat) :
    List FetchResult → Nat → Nat → LoopResult
  | [], cursor, _total => ⟨[], 0, [], cursor, [], false⟩
  | FetchResult.netError :: rest, cursor, total =>
    let r := fetchLoop lim rest cursor total
    ⟨r.pages, r.requests + 1, cursor :: r.cursors, r.finalCursor,
      retryBackoffMs :: r.backoffs, r.stopped⟩
  | FetchResult.exchangeError :: _rest, cursor, _total =>
    ⟨[], 1, [cursor], cursor, [], true⟩
  | FetchResult.page [] :: _rest, cursor, _total =>
    ⟨[], 1, [cursor], cursor, [], true⟩
  | FetchResult.page (c :: cs) :: rest, cursor, total =>
    let newCursor := (lastD c cs).ts + 1
    let total2 := total + (c :: cs).length
    if checkLimit lim total2 then
      ⟨[c :: cs], 1, [cursor], newCursor, [], true⟩
    else
      let r := fetchLoop lim rest newCursor total2
      ⟨(c :: cs) :: r.pages, r.requests + 1, cursor :: r.cursors,
        r.finalCursor, r.backoffs, r.stopped⟩

/-- Outcome of one `fetch_symbol` run: the stored Series after the run,
whether `save_csv` was invoked at all, and the loop observables. -/
structure RunResult where
  stored : Series
  wrote : Bool
  loop : LoopResult
deriving DecidableEq

/-- `fetch_symbol` (lines 80-139): Resume Planner, then the pagination
loop, then Merge/Persist — which is skipped entirely (`if all_new:`)
when no page was accumulated. -/
def fetch_symbol (script : List FetchResult) (existing : Series)
    (sinceMs : Nat) (lim : Option Nat) : RunResult :=
  let cursor := resumeCursor existing sinceMs
  let r := fetchLoop lim script cursor 0
  if r.pages = [] then ⟨existing, false, r⟩
  else ⟨save_csv (existing ++ r.pages.flatten), true, r⟩

-- The CLI layer: `parse_since` and the per-symbol loop of `main`.

/-- `ValueError` raised by `parse_since` when the fallback start string is
not parseable; the spec's `ConfigurationError`. -/
inductive ConfigurationError where
  | badSince
deriving DecidableEq

/-- `parse_since` (lines 39-50). The two out-of-scope parsers are passed
in as collaborators: `isoParse` models `datetime.fromisoformat` followed
by the UTC millisecond conversion, `p8601` models `exchange.parse8601`;
each yields `none` exactly when the corresponding parse fails. -/
def parse_since (isoParse p8601 : String → Option Nat) (s : String) :
    Except ConfigurationError Nat :=
  match isoParse s with
  | some ms => Except.ok ms
  | none =>
    match p8601 s with
    | some ms => Except.ok ms
    | none => Except.error ConfigurationError.badSince

/-- One instrument of a multi-instrument run: its collaborator script and
its stored Series at the start of the run. -/
structure Instrument where
  script : List FetchResult
  stored : Series
deriving DecidableEq

/-- The `for sym in symbols:` loop of `main` (lines 159-164): each
instrument is processed to completion by `fetch_symbol`, sequentially. -/
def runSymbols (instruments : List Instrument) (sinceMs : Nat)
    (lim : Option Nat) : List RunResult :=
  instruments.map (fun i => fetch_symbol i.script i.stored sinceMs lim)

/-- `main` (lines 142-164): `parse_since` runs before the symbol loop, so
a parse failure aborts the run before any instrument is processed. -/
def mainRun (isoParse p8601 : String → Option Nat) (sinceStr : String)
    (instruments : List Instrument) (lim : Option Nat) :
    Except ConfigurationError (List RunResult) :=
  match parse_since isoParse p8601 sinceStr with
  | Except.error e => Except.error e
  | Except.ok ms => Except.ok (runSymbols instruments ms lim)

-- Concrete candles used in counterexamples and witnesses.

/-- A stored bar at timestamp 0 with payload 1. -/
def staleCandle : Candle := ⟨0, 1, 1, 1, 1, 1⟩

/-- A newly fetched revision of the same bar: timestamp 0, payload 2. -/
def revisedCandle : Candle := ⟨0, 2, 2, 2, 2, 2⟩

/-!
## Claim theorems
-/

/-- C1 (counterexample): merge deduplication is NOT last-writer-wins.
With stored Series `[staleCandle]` and newly fetched `[revisedCandle]`
sharing timestamp 0, the merged Series persisted by `save_csv` is
`[staleCandle]`: the stale stored row survives, not the newly fetched
one (`drop_duplicates` defaults to `keep="first"`). -/
theorem merge_dup_keeps_stale :
    save_csv ([staleCandle] ++ [revisedCandle]) = [staleCandle] ∧
    staleCandle ≠ revisedCandle ∧
    staleCandle.ts = revisedCandle.ts := by
  decide

/-- C1 (amended): when a stored Candle and a newly fetched Candle share
a timestamp, every frame Merge/Persist may persist contains exactly one
Candle at that timestamp, and that Candle is one of the concatenated
input rows carrying the timestamp — but which of the duplicates survives
is not specified by the program (the unstable sort fixes no tie order
and the dedup keeps the first row in sorted order), so in particular it
need not be the newly fetched one. Stated for every previously stored
Series, newly fetched sequence, admissible persisted outcome, and
timestamp present in the concatenation. -/
theorem merge_dedup_one_per_ts_from_inputs (existing newRows out : Series)
    (t : Nat)
    (hout : SaveCsvOutcome (existing ++ newRows) out)
    (hmem : ∃ c ∈ existing ++ newRows, c.ts = t) :
    ∃ c, out.filter (fun d => d.ts == t) = [c] ∧
      c ∈ existing ++ newRows ∧ c.ts = t := by
  obtain ⟨sorted, ⟨hperm, _hpair⟩, rfl⟩ := hout
  have hfd := @filter_dropDupTs t [] sorted (by simp)
  obtain ⟨c, hc, hct⟩ := hmem
  have hcf : c ∈ sorted.filter (fun d => d.ts == t) :=
    List.mem_filter.mpr ⟨hperm.mem_iff.mpr hc, by simp [hct]⟩
  cases hf : sorted.filter (fun d => d.ts == t) with
  | nil => rw [hf] at hcf; simp at hcf
  | cons a rest =>
    have ha : a ∈ sorted.filter (fun d => d.ts == t) := by
      rw [hf]
      exact List.mem_cons_self _ _
    refine ⟨a, ?_, hperm.mem_iff.mp (List.mem_filter.mp ha).1, ?_⟩
    · rw [hfd, hf]
      rfl
    · have := (List.mem_filter.mp ha).2
      simpa using this

/-- Witness for C1 (amended) at a concrete input: the admissible sort
result `[revisedCandle, staleCandle]` (the tie order opposite to the
stable one) is exhibited explicitly, showing the surviving row is drawn
from the inputs without being pinned to either duplicate. -/
theorem merge_dedup_one_per_ts_from_inputs_witness :
    SaveCsvOutcome ([staleCandle] ++ [revisedCandle])
        (dropDupTs [] [revisedCandle, staleCandle]) ∧
    (∃ c ∈ [staleCandle] ++ [revisedCandle], c.ts = 0) ∧
    ∃ c, (dropDupTs [] [revisedCandle, staleCandle]).filter
        (fun d => d.ts == 0) = [c] ∧
      c ∈ [staleCandle] ++ [revisedCandle] ∧ c.ts = 0 :=
  ⟨⟨[revisedCandle, staleCandle], ⟨by decide, by decide⟩, rfl⟩,
    by decide,
    merge_dedup_one_per_ts_from_inputs [staleCandle] [revisedCandle]
      (dropDupTs [] [revisedCandle, staleCandle]) 0
      ⟨[revisedCandle, staleCandle], ⟨by decide, by decide⟩, rfl⟩
      (by decide)⟩

/-- C2: for every non-empty persisted Series (satisfying the strict
ordering invariant) whose last row is `c` (so `c.ts` is the latest
timestamp `T`), the Resume Planner yields exactly `T + 1`: strictly
greater than every stored timestamp (never `≤ T`), at most `T + 1`
(never `> T + 1`), and independent of the user-supplied fallback. -/
theorem resume_cursor_correct (existing : Series) (c : Candle)
    (s1 s2 : Nat)
    (hlast : lastCandle? existing = some c)
    (hsorted : List.Pairwise (fun a b => a.ts < b.ts) existing) :
    resumeCursor existing s1 = c.ts + 1 ∧
    (∀ d ∈ existing, d.ts < resumeCursor existing s1) ∧
    resumeCursor existing s1 ≤ c.ts + 1 ∧
    resumeCursor existing s1 = resumeCursor existing s2 := by
  have hcur : resumeCursor existing s1 = c.ts + 1 := by
    rw [resumeCursor, hlast]
  refine ⟨hcur, ?_, le_of_eq hcur, ?_⟩
  · intro d hd
    rw [hcur]
    cases existing with
    | nil => simp at hd
    | cons a as =>
      rw [lastCandle?] at hlast
      have hmax := lastD_ts_max hsorted d hd
      have : lastD a as = c := by
        simpa using hlast
      rw [this] at hmax
      omega
  · rw [hcur, resumeCursor, hlast]

/-- Witness for C2 at a concrete input. -/
theorem resume_cursor_correct_witness :
    lastCandle? [⟨5, 0, 0, 0, 0, 0⟩, ⟨9, 0, 0, 0, 0, 0⟩] =
        some ⟨9, 0, 0, 0, 0, 0⟩ ∧
    List.Pairwise (fun a b => a.ts < b.ts)
        [(⟨5, 0, 0, 0, 0, 0⟩ : Candle), ⟨9, 0, 0, 0, 0, 0⟩] ∧
    resumeCursor [⟨5, 0, 0, 0, 0, 0⟩, ⟨9, 0, 0, 0, 0, 0⟩] 42 = 10 :=
  ⟨by decide, by simp [List.pairwise_cons],
    (resume_cursor_correct [⟨5, 0, 0, 0, 0, 0⟩, ⟨9, 0, 0, 0, 0, 0⟩]
      ⟨9, 0, 0, 0, 0, 0⟩ 42 7 (by decide)
      (by simp [List.pairwise_cons])).1⟩

/-- C3: after every Merge/Persist, the persisted Series has strictly
increasing timestamps, whatever the order or duplication of the input
rows (in particular for any previous Series concatenated with any newly
fetched Candles). -/
theorem merge_persist_strict_mono (df : Series) :
    List.Pairwise (fun a b => a.ts < b.ts) (save_csv df) := by
  have hle : List.Pairwise (fun a b => a.ts ≤ b.ts) (save_csv df) :=
    List.Pairwise.sublist (dropDupTs_sublist [] (sortByTs df))
      (pairwise_sortByTs df)
  have hne : List.Pairwise (fun a b => a.ts ≠ b.ts) (save_csv df) := by
    have := dropDupTs_ts_nodup [] (sortByTs df)
    rw [List.Nodup, List.pairwise_map] at this
    exact this
  exact (hle.and hne).imp (fun h => lt_of_le_of_ne h.1 h.2)

/-- C4: if the collaborator returns an empty Page as the very first
response of a run, one single request is issued, Merge/Persist is
skipped (`wrote = false`) and the stored Series is returned unchanged —
for every stored Series, fallback start, row cap, and script tail. -/
theorem empty_first_page_no_write (existing : Series) (s : Nat)
    (lim : Option Nat) (rest : List FetchResult) :
    (fetch_symbol (FetchResult.page [] :: rest) existing s lim).stored
        = existing ∧
    (fetch_symbol (FetchResult.page [] :: rest) existing s lim).wrote
        = false ∧
    (fetch_symbol
        (FetchResult.page [] :: rest) existing s lim).loop.requests
        = 1 := by
  refine ⟨rfl, rfl, rfl⟩

/-- A concrete page of 500 candles at timestamps 0..499. -/
def witnessPage1 : List Candle :=
  (List.range 500).map (fun i => ⟨i, 0, 0, 0, 0, 0⟩)

/-- A concrete page of 500 candles at timestamps 500..999. -/
def witnessPage2 : List Candle :=
  (List.range 500).map (fun i => ⟨500 + i, 0, 0, 0, 0, 0⟩)

/-- C5: against a collaborator script of three Pages of sizes 500, 500
and 0, and with no row cap, the Pagination Engine issues exactly 3
requests, terminates on the empty Page, accumulates exactly the 1000
candles of the two non-empty Pages in request order, and after each
non-empty Page (the final one included) the cursor is advanced to that
Page's last timestamp + 1. -/
theorem pagination_three_pages_terminates (p1 p2 : List Candle)
    (c0 : Nat) (a b : Candle)
    (h1 : p1.length = 500) (h2 : p2.length = 500)
    (hl1 : lastCandle? p1 = some a) (hl2 : lastCandle? p2 = some b) :
    let r := fetchLoop none
      [FetchResult.page p1, FetchResult.page p2, FetchResult.page []]
      c0 0
    r.requests = 3 ∧
    r.pages.flatten = p1 ++ p2 ∧
    r.pages.flatten.length = 1000 ∧
    r.cursors = [c0, a.ts + 1, b.ts + 1] ∧
    r.finalCursor = b.ts + 1 ∧
    r.stopped = true := by
  cases p1 with
  | nil => simp at h1
  | cons x xs =>
    cases p2 with
    | nil => simp at h2
    | cons y ys =>
      have ha : lastD x xs = a := by
        rw [lastCandle?] at hl1
        exact Option.some.inj hl1
      have hb : lastD y ys = b := by
        rw [lastCandle?] at hl2
        exact Option.some.inj hl2
      simp only [List.length_cons] at h1 h2
      refine ⟨?_, ?_, ?_, ?_, ?_, ?_⟩
      all_goals simp [fetchLoop, checkLimit, ha, hb, h1, h2]
      all_goals omega

set_option maxRecDepth 100000 in
/-- Witness for C5 at a concrete input. -/
theorem pagination_three_pages_terminates_witness :
    witnessPage1.length = 500 ∧
    witnessPage2.length = 500 ∧
    lastCandle? witnessPage1 = some ⟨499, 0, 0, 0, 0, 0⟩ ∧
    lastCandle? witnessPage2 = some ⟨999, 0, 0, 0, 0, 0⟩ ∧
    (fetchLoop none
      [FetchResult.page witnessPage1, FetchResult.page witnessPage2,
        FetchResult.page []] 0 0).requests = 3 :=
  ⟨by decide, by decide, by decide, by decide,
    (pagination_three_pages_terminates witnessPage1 witnessPage2 0
      ⟨499, 0, 0, 0, 0, 0⟩ ⟨999, 0, 0, 0, 0, 0⟩
      (by decide) (by decide) (by decide) (by decide)).1⟩

/-- C6: with row cap `limit = 700` and a collaborator producing Pages of
sizes 500 then 500, the engine stops after consuming the second Page
(total added 1000 ≥ 700) without issuing a third request — whatever the
script would answer next — and the second Page is not trimmed: both full
Pages (1000 rows) enter the accumulation buffer. The cap is checked only
after each whole Page: after the first Page (500 < 700) the loop goes
on. The cursor is still advanced past the final Page. -/
theorem row_cap_checked_after_full_page (p1 p2 : List Candle)
    (rest : List FetchResult) (c0 : Nat) (a b : Candle)
    (h1 : p1.length = 500) (h2 : p2.length = 500)
    (hl1 : lastCandle? p1 = some a) (hl2 : lastCandle? p2 = some b) :
    let r := fetchLoop (some 700)
      (FetchResult.page p1 :: FetchResult.page p2 :: rest) c0 0
    r.requests = 2 ∧
    r.pages = [p1, p2] ∧
    r.pages.flatten.length = 1000 ∧
    r.cursors = [c0, a.ts + 1] ∧
    r.finalCursor = b.ts + 1 ∧
    r.stopped = true := by
  cases p1 with
  | nil => simp at h1
  | cons x xs =>
    cases p2 with
    | nil => simp at h2
    | cons y ys =>
      have ha : lastD x xs = a := by
        rw [lastCandle?] at hl1
        exact Option.some.inj hl1
      have hb : lastD y ys = b := by
        rw [lastCandle?] at hl2
        exact Option.some.inj hl2
      simp only [List.length_cons] at h1 h2
      refine ⟨?_, ?_, ?_, ?_, ?_, ?_⟩
      all_goals simp [fetchLoop, checkLimit, ha, hb, h1, h2]
      all_goals omega

set_option maxRecDepth 100000 in
/-- Witness for C6 at a concrete input. -/
theorem row_cap_checked_after_full_page_witness :
    witnessPage1.length = 500 ∧
    witnessPage2.length = 500 ∧
    lastCandle? witnessPage1 = some ⟨499, 0, 0, 0, 0, 0⟩ ∧
    lastCandle? witnessPage2 = some ⟨999, 0, 0, 0, 0, 0⟩ ∧
    (fetchLoop (some 700)
      (FetchResult.page witnessPage1 :: FetchResult.page witnessPage2 ::
        [FetchResult.page witnessPage1]) 0 0).requests = 2 :=
  ⟨by decide, by decide, by decide, by decide,
    (row_cap_checked_after_full_page witnessPage1 witnessPage2
      [FetchResult.page witnessPage1] 0
      ⟨499, 0, 0, 0, 0, 0⟩ ⟨999, 0, 0, 0, 0, 0⟩
      (by decide) (by decide) (by decide) (by decide)).1⟩

/-- C7: against a collaborator that raises a transient network error on
the first two requests and returns a non-empty Page on the third, the
engine issues exactly 3 requests, all at the same unchanged cursor,
sleeping the fixed 5000 ms backoff after each failure; the run completes
successfully, persisting the page merged into the stored Series (the
instrument is never aborted by a transient failure). -/
theorem network_retry_same_cursor (p : List Candle) (existing : Series)
    (s : Nat) (hp : p ≠ []) :
    let c0 := resumeCursor existing s
    let script := [FetchResult.netError, FetchResult.netError,
      FetchResult.page p]
    let r := fetchLoop none script c0 0
    r.requests = 3 ∧
    r.cursors = [c0, c0, c0] ∧
    r.backoffs = [retryBackoffMs, retryBackoffMs] ∧
    retryBackoffMs = 5000 ∧
    r.pages.flatten = p ∧
    (fetch_symbol script existing s none).wrote = true ∧
    (fetch_symbol script existing s none).stored
      = save_csv (existing ++ p) := by
  cases p with
  | nil => exact absurd rfl hp
  | cons x xs =>
    refine ⟨?_, ?_, ?_, rfl, ?_, ?_, ?_⟩ <;>
      simp [fetch_symbol, fetchLoop, checkLimit]

/-- Witness for C7 at a concrete input. -/
theorem network_retry_same_cursor_witness :
    ([staleCandle] : List Candle) ≠ [] ∧
    (fetchLoop none [FetchResult.netError, FetchResult.netError,
        FetchResult.page [staleCandle]] (resumeCursor [] 42) 0).cursors
      = [42, 42, 42] :=
  ⟨by decide,
    (network_retry_same_cursor [staleCandle] [] 42 (by decide)).2.1⟩

/-- C8: an `ExchangeFailure` is instrument-local. In a multi-instrument
run, an instrument whose collaborator raises an exchange error stops
paginating at once (a single request, no retry, the rest of its script
untouched) and nothing propagates: the run's result splits as the runs
before it, its own run, and the runs of all following instruments,
each processed normally. With the error on the first request its stored
Series is left unchanged and unwritten. -/
theorem exchange_error_instrument_local (pre post : List Instrument)
    (rest : List FetchResult) (st : Series) (s : Nat)
    (lim : Option Nat) :
    runSymbols
        (pre ++ ⟨FetchResult.exchangeError :: rest, st⟩ :: post) s lim
      = runSymbols pre s lim
        ++ fetch_symbol (FetchResult.exchangeError :: rest) st s lim
        :: runSymbols post s lim ∧
    (fetch_symbol
        (FetchResult.exchangeError :: rest) st s lim).loop.requests
      = 1 ∧
    (fetch_symbol
        (FetchResult.exchangeError :: rest) st s lim).loop.stopped
      = true ∧
    (fetch_symbol (FetchResult.exchangeError :: rest) st s lim).stored
      = st ∧
    (fetch_symbol (FetchResult.exchangeError :: rest) st s lim).wrote
      = false := by
  refine ⟨?_, rfl, rfl, rfl, rfl⟩
  simp [runSymbols]

/-- The pagination loop against a script of non-empty pages followed by
an exchange error accumulates exactly those pages and then stops,
regardless of what follows the error in the script and with no user row
cap in force. -/
lemma fetchLoop_pages_then_exchangeError (ps : List (List Candle))
    (junk : List FetchResult) (c t : Nat)
    (h : ∀ p ∈ ps, p ≠ []) :
    (fetchLoop none
      (ps.map FetchResult.page
        ++ FetchResult.exchangeError :: junk) c t).pages = ps ∧
    (fetchLoop none
      (ps.map FetchResult.page
        ++ FetchResult.exchangeError :: junk) c t).stopped = true := by
  induction ps generalizing c t with
  | nil => exact ⟨rfl, rfl⟩
  | cons p ps ih =>
    cases p with
    | nil => exact absurd rfl (h [] (List.mem_cons_self _ _))
    | cons x xs =>
      have ih2 := ih ((lastD x xs).ts + 1) (t + (xs.length + 1))
        (fun q hq => h q (List.mem_cons_of_mem _ hq))
      simp only [List.map_cons, List.cons_append, fetchLoop,
        checkLimit]
      exact ⟨by simp [ih2.1], by simp [ih2.2]⟩

/-- C10: partial progress is persisted on an exchange error. When an
exchange error ends the pagination loop after `k ≥ 1` non-empty Pages
were fetched, the accumulated candles are still merged with the stored
Series and persisted; only when zero Pages were fetched is the stored
Series left untouched, with no write. -/
theorem exchange_error_partial_persist (ps : List (List Candle))
    (junk : List FetchResult) (existing : Series) (s : Nat)
    (h : ∀ p ∈ ps, p ≠ []) :
    (ps ≠ [] →
      (fetch_symbol
          (ps.map FetchResult.page ++ FetchResult.exchangeError :: junk)
          existing s none).wrote = true ∧
      (fetch_symbol
          (ps.map FetchResult.page ++ FetchResult.exchangeError :: junk)
          existing s none).stored
        = save_csv (existing ++ ps.flatten)) ∧
    (ps = [] →
      (fetch_symbol
          (ps.map FetchResult.page ++ FetchResult.exchangeError :: junk)
          existing s none).wrote = false ∧
      (fetch_symbol
          (ps.map FetchResult.page ++ FetchResult.exchangeError :: junk)
          existing s none).stored = existing) := by
  have hp := (fetchLoop_pages_then_exchangeError ps junk
    (resumeCursor existing s) 0 h).1
  constructor
  · intro hne
    rw [fetch_symbol]
    simp only [hp]
    simp [hne]
  · intro hnil
    subst hnil
    rw [fetch_symbol]
    simp only [hp]
    simp

/-- Witness for C10 at a concrete input. -/
theorem exchange_error_partial_persist_witness :
    (∀ p ∈ [[staleCandle]], p ≠ ([] : List Candle)) ∧
    (([[staleCandle]] : List (List Candle)) ≠ [] →
      (fetch_symbol
          ([[staleCandle]].map FetchResult.page
            ++ FetchResult.exchangeError :: [])
          [] 42 none).wrote = true ∧
      (fetch_symbol
          ([[staleCandle]].map FetchResult.page
            ++ FetchResult.exchangeError :: [])
          [] 42 none).stored
        = save_csv ([] ++ [[staleCandle]].flatten)) :=
  ⟨by decide,
    (exchange_error_partial_persist [[staleCandle]] [] [] 42
      (by decide)).1⟩

/-- C9: when the fallback start string parses neither as a calendar date
nor as an exchange full timestamp, the run fails with the configuration
error before any instrument is processed: `mainRun` returns the error
and no `RunResult` is produced for any instrument (no fetch, no
persist). -/
theorem bad_since_aborts_before_instruments
    (isoParse p8601 : String → Option Nat) (sinceStr : String)
    (instruments : List Instrument) (lim : Option Nat)
    (h1 : isoParse sinceStr = none) (h2 : p8601 sinceStr = none) :
    mainRun isoParse p8601 sinceStr instruments lim
      = Except.error ConfigurationError.badSince := by
  rw [mainRun, parse_since, h1, h2]

/-- A malformed fallback start string used by the C9 witness. -/
def badSinceStr : String := "not-a-date"

/-- Witness for C9 at a concrete input. -/
theorem bad_since_aborts_before_instruments_witness :
    (fun _ : String => (none : Option Nat)) badSinceStr = none ∧
    mainRun (fun _ => none) (fun _ => none) badSinceStr
        [⟨[FetchResult.page [staleCandle]], []⟩] (some 7)
      = Except.error ConfigurationError.badSince :=
  ⟨rfl,
    bad_since_aborts_before_instruments (fun _ => none) (fun _ => none)
      badSinceStr [⟨[FetchResult.page [staleCandle]], []⟩] (some 7)
      rfl rfl⟩

end TrendFollowing
